import Mathlib

/-!
Verification of the PCAPpuller core engine (package `pcappuller`): a shallow
embedding in Lean 4 of the selection / filtering / merge-pipeline code of
`core.py`, `cache.py` and `tools.py`, together with theorems settling the
behavioural claims made about it.

Modelling conventions:
* Python floats used as epoch timestamps, sizes and mtimes are modelled as
  `Int` — only ordering and equality of these values matter to the code.
* Filesystem paths are `String`s; `stat` results are supplied as oracles
  `String → Option (Int × Int)` (`none` models an `OSError` from `stat`).
* External subprocess results (capinfos, mergecap, editcap, tshark, gzip)
  are supplied as explicit outcome parameters, since the code treats them
  as opaque success / failure / text-output sources.
* Python exceptions are modelled with `Except Unit`.
-/

namespace PCAPPuller

/-- Epoch timestamps / mtimes (Python floats; only order is used). -/
abbrev Time := Int

/-- The requested worker value in `parse_workers`: the string `"auto"` or an
explicit integer (`isinstance(value, int)` branch of the source). -/
inductive WorkersReq where
  | auto : WorkersReq
  | explicitInt (k : Int) : WorkersReq

/-- Embedding of `core.parse_workers`.  `cpu_count` models `os.cpu_count()`
(`none` or `some 0` fall back to 4, as Python's `or 4` does on falsy values).
`auto` takes `max 4 (cpu * 2)` capped at 16 when `total_files ≥ 2000` else at
32; an explicit integer passes through; the result is clamped to `[1, 64]` by
`max(1, min(w, 64))`. -/
def parse_workers (cpu_count : Option Nat) (value : WorkersReq) (total_files : Nat) : Int :=
  let w : Int :=
    match value with
    | .explicitInt k => k
    | .auto =>
      let cpu : Int :=
        match cpu_count with
        | none => 4
        | some n => if n = 0 then 4 else (n : Int)
      let w0 : Int := max 4 (cpu * 2)
      if total_files ≥ 2000 then min w0 16 else min w0 32
  max 1 (min w 64)

/-! ### Metadata cache (`cache.py`, class `CapinfosCache`)

The SQLite table `entries` keyed by `path` is modelled as an association
list with `REPLACE INTO` semantics; `Path.stat()` is an oracle
`String → Option (Int × Time)` giving `(st_size, st_mtime)` or `none` for
an `OSError`. -/

/-- One row of the `entries` table. -/
structure CacheEntry where
  size : Int
  mtime : Time
  first : Option Time
  last : Option Time
  updated_at : Time
deriving DecidableEq

/-- The backing store: rows keyed by path (the table's PRIMARY KEY). -/
abbrev Store := List (String × CacheEntry)

/-- `REPLACE INTO entries(...)`: upsert the row for `p`. -/
def storeReplace (s : Store) (p : String) (e : CacheEntry) : Store :=
  (p, e) :: s.filter (fun q => q.1 != p)

/-- Embedding of `CapinfosCache.get`: stat the path (an `OSError` is a miss),
select the row matching `(path, size, mtime)` exactly, and return bounds only
when both stored bounds are non-NULL. -/
def cache_get (statNow : String → Option (Int × Time)) (store : Store) (p : String) :
    Option (Time × Time) :=
  match statNow p with
  | none => none
  | some (sz, mt) =>
    match store.lookup p with
    | none => none
    | some e =>
      if e.size = sz ∧ e.mtime = mt then
        match e.first, e.last with
        | some f, some l => some (f, l)
        | _, _ => none
      else none

/-- Embedding of `CapinfosCache.set`: stat the path (an `OSError` makes the
call a no-op), then upsert the row with the current `(size, mtime)`. -/
def cache_set (statNow : String → Option (Int × Time)) (store : Store) (p : String)
    (first last : Option Time) (now : Time) : Store :=
  match statNow p with
  | none => store
  | some (sz, mt) => storeReplace store p ⟨sz, mt, first, last, now⟩

/-- Result of one `_get_bounds` call (`core.precise_filter_parallel`): the
bounds obtained, the cache store afterwards, and whether `capinfos` ran. -/
structure GetBoundsRun where
  bounds : Option Time × Option Time
  store : Store
  toolCalled : Bool
deriving DecidableEq

/-- Embedding of `_get_bounds` in `core.precise_filter_parallel` with a cache
present and no exceptions: consult `cache.get`; on a hit return it without
running the tool; on a miss run `capinfos_epoch_bounds` (outcome supplied as
`tool`) and `cache.set` the result — even a `(None, None)` one. -/
def get_bounds_cached (statNow : String → Option (Int × Time)) (store : Store)
    (tool : Option Time × Option Time) (now : Time) (p : String) : GetBoundsRun :=
  match cache_get statNow store p with
  | some (f, l) => ⟨(some f, some l), store, false⟩
  | none => ⟨tool, cache_set statNow store p tool.1 tool.2 now, true⟩

/-! ### Precise filter (`core.precise_filter_parallel`)

Each file's `_get_bounds` outcome is supplied as data: `.error ()` models the
future raising (caught by `except Exception` in the loop), `.ok (f?, l?)`
models a returned pair.  `as_completed` makes the completion order
nondeterministic, so the kept list is modelled in submission order and the
claims about it are membership claims. -/

/-- The selection window; `start`/`stop` are `window.start.timestamp()` and
`window.end.timestamp()` (`end` is a Lean keyword, hence `stop`). -/
structure Window where
  start : Time
  stop : Time
deriving DecidableEq

/-- One candidate with its `_get_bounds` outcome. -/
structure FileB where
  path : String
  bounds : Except Unit (Option Time × Option Time)

/-- The per-file decision of the `as_completed` loop: an exception or an
unresolved bound drops the file; otherwise keep iff
`not (l_epoch < start_ts or f_epoch > end_ts)`. -/
def keep_decision (w : Window) (b : Except Unit (Option Time × Option Time)) : Bool :=
  match b with
  | .error _ => false
  | .ok (fOpt, lOpt) =>
    match fOpt, lOpt with
    | some f_epoch, some l_epoch =>
      if l_epoch < w.start ∨ f_epoch > w.stop then false else true
    | _, _ => false

/-- Embedding of `core.precise_filter_parallel` (kept-set content). -/
def precise_filter_parallel (files : List FileB) (w : Window) : List FileB :=
  files.filter (fun f => keep_decision w f.bounds)

/-! ### Concrete stat oracles used by witnesses and counterexamples. -/

/-- A filesystem where `"p"` has size 10 and mtime 20. -/
def statA : String → Option (Int × Time) := fun q => if q = "p" then some (10, 20) else none

/-- The same file after its mtime changed to 21. -/
def statB : String → Option (Int × Time) := fun q => if q = "p" then some (10, 21) else none

/-- A filesystem where every `stat` raises `OSError`. -/
def statC : String → Option (Int × Time) := fun _ => none

/-! ### String primitives

Python string operations used by the code, modelled executably over
`List Char` (ASCII-faithful, which is all the parsed tool output and file
extensions use). -/

/-- Python `str.lower()`. -/
def pyLower (cs : List Char) : List Char := cs.map Char.toLower

/-- Python whitespace for `str.strip()` (ASCII subset). -/
def isPySpace (c : Char) : Bool :=
  c == ' ' || c == '\t' || c == '\n' || c == '\r' || c == '\x0b' || c == '\x0c'

/-- Python `str.strip()`. -/
def pyStrip (cs : List Char) : List Char :=
  ((cs.dropWhile isPySpace).reverse.dropWhile isPySpace).reverse

/-- Python `str.startswith(pre)`. -/
def startsWithL : List Char → List Char → Bool
  | [], _ => true
  | _ :: _, [] => false
  | p :: ps, c :: cs => p == c && startsWithL ps cs

/-- The part of a line after its first `:` — Python `line.split(":", 1)[1]`;
`none` when there is no colon (`[1]` would raise `IndexError`). -/
def afterFirstColon : List Char → Option (List Char)
  | [] => none
  | c :: cs => if c == ':' then some cs else afterFirstColon cs

/-! ### Bounds adapter (`tools.capinfos_epoch_bounds`)

The subprocess result is supplied as `(returncode, stdout lines)`; Python's
`float(...)` parser (whose `ValueError` the code catches) is the oracle
`tryFloat`, returning `none` exactly when `float` would raise. -/

/-- `float(line.split(":", 1)[1].strip())` with every exception mapped to
`None` — the body of each `try` in `capinfos_epoch_bounds`. -/
def parse_epoch_field (tryFloat : List Char → Option Time) (line : List Char) : Option Time :=
  match afterFirstColon line with
  | none => none
  | some rest => tryFloat (pyStrip rest)

/-- `line.strip().lower().startswith("first packet time:" | "earliest packet time:")`. -/
def isFirstLabel (line : List Char) : Bool :=
  startsWithL "first packet time:".toList (pyLower (pyStrip line)) ||
    startsWithL "earliest packet time:".toList (pyLower (pyStrip line))

/-- `line.strip().lower().startswith("last packet time:" | "latest packet time:")`. -/
def isLastLabel (line : List Char) : Bool :=
  startsWithL "last packet time:".toList (pyLower (pyStrip line)) ||
    startsWithL "latest packet time:".toList (pyLower (pyStrip line))

/-- One iteration of the line loop in `capinfos_epoch_bounds` (the `elif`
chain; a later matching line overwrites an earlier bound). -/
def capinfos_step (tryFloat : List Char → Option Time) (acc : Option Time × Option Time)
    (line : String) : Option Time × Option Time :=
  if isFirstLabel line.toList then (parse_epoch_field tryFloat line.toList, acc.2)
  else if isLastLabel line.toList then (acc.1, parse_epoch_field tryFloat line.toList)
  else acc

/-- Embedding of `tools.capinfos_epoch_bounds`: `(None, None)` on a non-zero
exit code, else the fold of `capinfos_step` over stdout lines starting from
`(None, None)`. -/
def capinfos_epoch_bounds (returncode : Int) (lines : List String)
    (tryFloat : List Char → Option Time) : Option Time × Option Time :=
  if returncode ≠ 0 then (none, none)
  else lines.foldl (capinfos_step tryFloat) (none, none)

/-! ### Cache-failure model (`_get_bounds` with a raising cache)

`CapinfosCache.get`/`set` guard only the `stat` call with `try`; a failure of
the SQLite layer itself propagates.  `cacheGet` below is the outcome of
`cache.get(p)` (`.error` = it raised), `cacheSetOk` whether `cache.set`
returns without raising. -/

/-- `_get_bounds` of `core.precise_filter_parallel` /
`core.summarize_first_last` with a cache whose calls may raise: a raising
`get` propagates; a hit returns without running the tool; on a miss the tool
result is returned unless the subsequent `cache.set` raises. -/
def get_bounds_exc (cacheGet : Except Unit (Option (Time × Time)))
    (tool : Option Time × Option Time) (cacheSetOk : Bool) :
    Except Unit (Option Time × Option Time) :=
  match cacheGet with
  | .error e => .error e
  | .ok (some (f, l)) => .ok (some f, some l)
  | .ok none => if cacheSetOk then .ok tool else .error ()

/-- Embedding of `core.summarize_first_last` over the per-file `_get_bounds`
outcomes: an empty input returns `None`; otherwise every future's `.result()`
is read unguarded — the first exception propagates (`.error`) — pairs with
both bounds present are collected, and `(min firsts, max lasts)` is returned,
or `None` when nothing resolved. -/
def summarize_first_last (files : List (Except Unit (Option Time × Option Time))) :
    Except Unit (Option (Time × Time)) :=
  match files with
  | [] => .ok none
  | _ :: _ => do
    let pairs ← files.mapM id
    let firsts := pairs.filterMap (fun pr =>
      match pr with
      | (some f, some _) => some f
      | _ => none)
    let lasts := pairs.filterMap (fun pr =>
      match pr with
      | (some _, some l) => some l
      | _ => none)
    match firsts, lasts with
    | f0 :: fr, l0 :: lr => return some (fr.foldl min f0, lr.foldl max l0)
    | _, _ => return none

/-! ### Candidate scanner (`core.candidate_files`)

Directory trees are inductive values; `os.walk` is the recursive file
enumeration `walkFiles`; each file carries its name and the `st_mtime` its
`stat()` would give (`none` models an `OSError`). -/

/-- A file met during the walk: basename and `stat` outcome. -/
structure FileEntry where
  name : String
  statMtime : Option Time
deriving DecidableEq

/-- A directory tree (files plus subdirectories). -/
inductive FTree where
  | node (files : List FileEntry) (subdirs : List FTree)

mutual

/-- All files under a tree, in `os.walk` top-down order. -/
def FTree.walkFiles : FTree → List FileEntry
  | .node fs ds => fs ++ walkForest ds

/-- All files under a list of sibling subtrees. -/
def walkForest : List FTree → List FileEntry
  | [] => []
  | t :: ts => t.walkFiles ++ walkForest ts

end

/-- A `--root` argument: whether `root.is_dir()` holds, and its tree. -/
structure Root where
  isDir : Bool
  tree : FTree

/-- Index of the last dot — Python `name.rfind(".")` (as `Option`). -/
def rfindDot : List Char → Option Nat
  | [] => none
  | x :: xs =>
    match rfindDot xs with
    | some i => some (i + 1)
    | none => if x == '.' then some 0 else none

/-- Python `PurePath(name).suffix` on a basename: `name[i:]` when
`0 < i < len(name) - 1` for `i = name.rfind(".")`, else the empty suffix. -/
def pySuffix (name : List Char) : List Char :=
  match rfindDot name with
  | none => []
  | some i => if 0 < i ∧ i < name.length - 1 then name.drop i else []

/-- `core.PCAP_EXTS = {".pcap", ".pcapng", ".cap"}`. -/
def PCAP_EXTS : List (List Char) := [".pcap".toList, ".pcapng".toList, ".cap".toList]

/-- The per-file test of the scanner loop: extension (lower-cased suffix) in
`PCAP_EXTS`, then `stat` (an `OSError` skips the file), then
`lower_ts <= st.st_mtime <= upper_ts`. -/
def is_candidate (lower upper : Time) (f : FileEntry) : Bool :=
  if PCAP_EXTS.contains (pyLower (pySuffix f.name.toList)) then
    match f.statMtime with
    | none => false
    | some mt => decide (lower ≤ mt) && decide (mt ≤ upper)
  else false

/-- The root loop of `core.candidate_files`: a non-directory root raises
`PCAPPullerError`; a directory root contributes its accepted files in walk
order. -/
def scan_files (lower upper : Time) : List Root → Except Unit (List FileEntry)
  | [] => .ok []
  | r :: rs =>
    if r.isDir then
      match scan_files lower upper rs with
      | .error e => .error e
      | .ok fs => .ok (r.tree.walkFiles.filter (is_candidate lower upper) ++ fs)
    else .error ()

/-- Embedding of `core.candidate_files`: the window is widened by
`timedelta(minutes=slop_min)` on both sides (`60 * slop_min` in epoch
seconds). -/
def candidate_files (roots : List Root) (w : Window) (slop_min : Int) :
    Except Unit (List FileEntry) :=
  scan_files (w.start - slop_min * 60) (w.stop + slop_min * 60) roots

/-! ### Sorting and batching (`core.build_output`) -/

/-- Path order used by Python's `sorted(candidates)`: lexicographic on the
characters.  (`sorted` is stable, but over a linear order the sorted
arrangement of a multiset is unique, so any correct sort models it.) -/
def pathLe (a b : String) : Prop := a.toList ≤ b.toList

instance : DecidableRel pathLe := fun a b => inferInstanceAs (Decidable (a.toList ≤ b.toList))

instance : IsTrans String pathLe := ⟨fun _ _ _ hab hbc => le_trans hab hbc⟩

instance : IsTotal String pathLe := ⟨fun a b => le_total a.toList b.toList⟩

instance : IsAntisymm String pathLe := ⟨fun _ _ h1 h2 => String.ext (le_antisymm h1 h2)⟩

/-- `candidates = sorted(candidates)`. -/
def sort_candidates (l : List String) : List String := l.insertionSort pathLe

/-- The batch partition
`[candidates[i : i + bs] for i in range(0, len(candidates), bs)]`:
consecutive slices of size `bs` (callers pass `bs ≥ 1`). -/
def batch_slices {α : Type} (bs : Nat) : List α → List (List α)
  | [] => []
  | x :: xs => ((x :: xs).take bs) :: batch_slices bs (xs.drop (bs - 1))
termination_by l => l.length
decreasing_by simp only [List.length_drop, List.length_cons]; omega

/-- `bs = max(1, batch_size)` followed by the slice comprehension. -/
def build_batches (batch_size : Int) (l : List String) : List (List String) :=
  batch_slices (max 1 batch_size).toNat l

/-! ### Merge pipeline (`core.build_output`) and destination state

External tools run strictly sequentially; every intermediate artifact lives
in the `TemporaryDirectory`, and the destination path is touched only by the
final step.  That final step (`tools.gzip_file`, which does
`gzip.open(dst, "wb")` on the destination itself, or `shutil.copy2` straight
to `out_path`) opens the destination for writing before success is known, so
its failure leaves a truncated file at the destination; any earlier failure
(`CalledProcessError` from a tool, `OSError` in the workspace) aborts with
the destination never opened. -/

/-- What is visible at the destination path after the call. -/
inductive Dest where
  | absent : Dest
  | truncated : Dest
  | complete : Dest
deriving DecidableEq

/-- Success/failure outcomes of the external stages of one invocation. -/
structure Outcomes where
  mergeBatchOk : Nat → Bool
  combineOk : Bool
  trimOk : Bool
  tsharkOk : Bool
  copyToTmpOk : Bool
  finalWriteOk : Bool

/-- All stages before the final write succeed: each per-batch `mergecap`, the
combine `mergecap` (skipped when there is a single batch), the `editcap`
trim, and `tshark` (when a display filter is given) or the in-workspace
`shutil.copy2` (when not). -/
def stage_outcomes_ok (o : Outcomes) (numBatches : Nat) (displayFilter : Bool) : Bool :=
  ((List.range numBatches).all o.mergeBatchOk) &&
    (numBatches == 1 || o.combineOk) &&
    o.trimOk &&
    (if displayFilter then o.tsharkOk else o.copyToTmpOk)

/-- Embedding of `core.build_output` at the granularity the destination-path
claims need: empty candidates raise before any stage; otherwise candidates
are sorted and batched, the sequential stages run, and only the final write
touches the destination — completing it on success and leaving a truncated
file on failure. -/
def build_output (candidates : List String) (batch_size : Int) (displayFilter : Bool)
    (o : Outcomes) : Except Unit Unit × Dest :=
  if candidates.isEmpty then (.error (), .absent)
  else
    let batches := build_batches batch_size (sort_candidates candidates)
    if stage_outcomes_ok o batches.length displayFilter then
      if o.finalWriteOk then (.ok (), .complete) else (.error (), .truncated)
    else (.error (), .absent)

/-! ### Concrete fixtures for witnesses and counterexamples. -/

/-- An invocation where every external stage succeeds. -/
def allOk : Outcomes := ⟨fun _ => true, true, true, true, true, true⟩

/-- An invocation where only the final compress/copy to the destination
fails. -/
def failFinal : Outcomes := ⟨fun _ => true, true, true, true, true, false⟩

/-- A capture file with mtime inside the widened window. -/
def fGood : FileEntry := ⟨"a.pcap", some 100⟩

/-- A file with a non-capture extension. -/
def fBadExt : FileEntry := ⟨"notes.txt", some 100⟩

/-- A capture file whose `stat` raises. -/
def fStatFail : FileEntry := ⟨"b.pcap", none⟩

/-- A capture file (upper-case extension) with mtime outside the window. -/
def fOld : FileEntry := ⟨"c.PCAP", some (-500)⟩

/-- A two-level directory tree holding the four fixture files. -/
def treeW : FTree := .node [fGood, fBadExt] [.node [fStatFail, fOld] []]

/-- A root that is a directory. -/
def rootW : Root := ⟨true, treeW⟩

/-- A root that is not a directory. -/
def rootBad : Root := ⟨false, .node [] []⟩

/-- The fixture window `[0, 100]`. -/
def wW : Window := ⟨0, 100⟩

/-- C3: worker-count policy.  `auto` lands in `[4, 32]` below 2000 candidates
and in `[4, 16]` at or above 2000; an explicit integer `k` is clamped to
`[1, 64]`; every result is in `[1, 64]`. -/
theorem parse_workers_policy (cpu : Option Nat) (n : Nat) (k : Int) :
    (n < 2000 →
      4 ≤ parse_workers cpu .auto n ∧ parse_workers cpu .auto n ≤ 32) ∧
    (2000 ≤ n →
      4 ≤ parse_workers cpu .auto n ∧ parse_workers cpu .auto n ≤ 16) ∧
    parse_workers cpu (.explicitInt k) n = max 1 (min k 64) ∧
    (∀ v : WorkersReq, 1 ≤ parse_workers cpu v n ∧ parse_workers cpu v n ≤ 64) := by
  have hcpu : (1 : Int) ≤
      (match cpu with
       | none => (4 : Int)
       | some m => if m = 0 then (4 : Int) else (m : Int)) := by
    match cpu with
    | none => norm_num
    | some m =>
      by_cases hm : m = 0
      · simp [hm]
      · simp only [hm, if_false]
        exact_mod_cast Nat.one_le_iff_ne_zero.mpr hm
  refine ⟨?_, ?_, ?_, ?_⟩
  · intro hn
    simp only [parse_workers]
    have h2000 : ¬ (n ≥ 2000) := by omega
    simp only [h2000, if_false]
    omega
  · intro hn
    simp only [parse_workers]
    have h2000 : n ≥ 2000 := hn
    simp only [h2000, if_true]
    omega
  · rfl
  · intro v
    match v with
    | .explicitInt k => simp only [parse_workers]; omega
    | .auto =>
      simp only [parse_workers]
      by_cases h2000 : n ≥ 2000 <;> simp only [h2000, if_true, if_false] <;> omega

/-- Witness for `parse_workers_policy` at concrete inputs. -/
theorem parse_workers_policy_witness :
    (100 < 2000 ∧ 4 ≤ parse_workers (some 8) .auto 100 ∧ parse_workers (some 8) .auto 100 ≤ 32) ∧
    (2000 ≤ 5000 ∧ 4 ≤ parse_workers (some 8) .auto 5000 ∧ parse_workers (some 8) .auto 5000 ≤ 16) ∧
    parse_workers (some 8) (.explicitInt 999) 100 = max 1 (min 999 64) ∧
    (1 ≤ parse_workers (some 8) .auto 100 ∧ parse_workers (some 8) .auto 100 ≤ 64) := by
  refine ⟨⟨by norm_num, (parse_workers_policy (some 8) 100 999).1 (by norm_num)⟩,
          ⟨by norm_num, (parse_workers_policy (some 8) 5000 999).2.1 (by norm_num)⟩,
          (parse_workers_policy (some 8) 100 999).2.2.1,
          (parse_workers_policy (some 8) 100 999).2.2.2 .auto⟩

/-- Helper: the keep decision is true exactly on resolved, overlapping bounds. -/
theorem keep_decision_iff (w : Window) (b : Except Unit (Option Time × Option Time)) :
    keep_decision w b = true ↔
      ∃ fe le, b = .ok (some fe, some le) ∧ ¬(le < w.start ∨ fe > w.stop) := by
  match b with
  | .error e => simp [keep_decision]
  | .ok (fOpt, lOpt) =>
    match fOpt, lOpt with
    | some fe, some le =>
      by_cases h : le < w.start ∨ fe > w.stop
      · simp [keep_decision, h]
        intro hle
        rcases h with h | h
        · exact absurd hle (not_le.mpr h)
        · exact h
      · simp [keep_decision, h]
        push_neg at h
        exact ⟨fe, le, ⟨rfl, rfl⟩, h.1, h.2⟩
    | some fe, none => simp [keep_decision]
    | none, some le => simp [keep_decision]
    | none, none => simp [keep_decision]

/-- C1: the precise filter keeps a file iff it is a candidate whose bounds
resolved to `(some fe, some le)` — no exception, neither bound `None` — and
`not (le < window.start_ts or fe > window.end_ts)`; in particular boundary
touching (`le = w.start` or `fe = w.stop`) keeps, and unresolvable bounds
drop. -/
theorem precise_filter_keeps_iff (files : List FileB) (w : Window) (f : FileB) :
    f ∈ precise_filter_parallel files w ↔
      f ∈ files ∧ ∃ fe le, f.bounds = .ok (some fe, some le) ∧
        ¬(le < w.start ∨ fe > w.stop) := by
  rw [precise_filter_parallel, List.mem_filter, keep_decision_iff]

/-- C2: cache round-trip and staleness.  After `set(p, (f, l))` under stat
result `(sz, mt)`, a `get(p)` seeing the same `(sz, mt)` returns `(f, l)`; a
`get(p)` seeing a different `(size, mtime)`, or failing to stat `p`, returns
miss. -/
theorem cache_round_trip (stat1 stat2 : String → Option (Int × Time)) (store : Store)
    (p : String) (f l now : Time) (sz : Int) (mt : Time)
    (h1 : stat1 p = some (sz, mt)) :
    (stat2 p = some (sz, mt) →
      cache_get stat2 (cache_set stat1 store p (some f) (some l) now) p = some (f, l)) ∧
    (∀ sz' mt', stat2 p = some (sz', mt') → ¬(sz' = sz ∧ mt' = mt) →
      cache_get stat2 (cache_set stat1 store p (some f) (some l) now) p = none) ∧
    (stat2 p = none →
      cache_get stat2 (cache_set stat1 store p (some f) (some l) now) p = none) := by
  have hset : cache_set stat1 store p (some f) (some l) now =
      (p, ⟨sz, mt, some f, some l, now⟩) :: store.filter (fun q => q.1 != p) := by
    simp [cache_set, h1, storeReplace]
  refine ⟨?_, ?_, ?_⟩
  · intro h2
    rw [hset]
    simp [cache_get, h2, List.lookup]
  · intro sz' mt' h2 hne
    rw [hset]
    have : ¬(sz = sz' ∧ mt = mt') := by tauto
    simp [cache_get, h2, List.lookup, this]
  · intro h2
    simp [cache_get, h2]

/-- Witness for `cache_round_trip`: set then get with the file unchanged
returns the bounds; get after an mtime change, or with `stat` failing,
misses. -/
theorem cache_round_trip_witness :
    cache_get statA (cache_set statA [] "p" (some 5) (some 9) 0) "p" = some (5, 9) ∧
    cache_get statB (cache_set statA [] "p" (some 5) (some 9) 0) "p" = none ∧
    cache_get statC (cache_set statA [] "p" (some 5) (some 9) 0) "p" = none := by
  refine ⟨(cache_round_trip statA statA [] "p" 5 9 0 10 20 (by decide)).1 (by decide),
    (cache_round_trip statA statB [] "p" 5 9 0 10 20 (by decide)).2.1 10 21 (by decide)
      (by decide),
    (cache_round_trip statA statC [] "p" 5 9 0 10 20 (by decide)).2.2 (by decide)⟩

/-- C5 counterexample: after the tool yields `(None, None)` for `"p"` and the
result is upserted, a second `_get_bounds` for `"p"` with size and mtime
unchanged invokes the external tool AGAIN (`toolCalled = true`), because
`CapinfosCache.get` returns `None` (a miss) for a row whose stored bounds are
NULL — the cached negative entry is never "used" to suppress a retry. -/
theorem negative_cache_counterexample :
    (get_bounds_cached statA [] (none, none) 0 "p").store =
      [("p", ⟨10, 20, none, none, 0⟩)] ∧
    (get_bounds_cached statA
      (get_bounds_cached statA [] (none, none) 0 "p").store
      (none, none) 1 "p").toolCalled = true := by
  decide

/-- C5 amended: a `None` tool result is still upserted into the cache, but on
a subsequent lookup with unchanged size and mtime the NULL-bounds row reads as
a miss and the external bounds tool runs again. -/
theorem negative_cache_retries (statNow : String → Option (Int × Time)) (store : Store)
    (now now2 : Time) (p : String) (sz : Int) (mt : Time)
    (tool2 : Option Time × Option Time)
    (h : statNow p = some (sz, mt))
    (hmiss : cache_get statNow store p = none) :
    (get_bounds_cached statNow store (none, none) now p).toolCalled = true ∧
    (get_bounds_cached statNow store (none, none) now p).store.lookup p =
      some ⟨sz, mt, none, none, now⟩ ∧
    cache_get statNow (get_bounds_cached statNow store (none, none) now p).store p = none ∧
    (get_bounds_cached statNow
      (get_bounds_cached statNow store (none, none) now p).store tool2 now2 p).toolCalled =
      true := by
  have hrun : get_bounds_cached statNow store (none, none) now p =
      ⟨(none, none), cache_set statNow store p none none now, true⟩ := by
    simp [get_bounds_cached, hmiss]
  have hset : cache_set statNow store p none none now =
      (p, ⟨sz, mt, none, none, now⟩) :: store.filter (fun q => q.1 != p) := by
    simp [cache_set, h, storeReplace]
  have hget2 : cache_get statNow (cache_set statNow store p none none now) p = none := by
    rw [hset]
    simp [cache_get, h, List.lookup]
  refine ⟨by rw [hrun], ?_, ?_, ?_⟩
  · rw [hrun, hset]
    simp [List.lookup]
  · rw [hrun]
    exact hget2
  · rw [hrun]
    simp [get_bounds_cached, hget2]

/-- Witness for `negative_cache_retries` at a concrete store and filesystem. -/
theorem negative_cache_retries_witness :
    (get_bounds_cached statA [] (none, none) 0 "p").toolCalled = true ∧
    (get_bounds_cached statA [] (none, none) 0 "p").store.lookup "p" =
      some ⟨10, 20, none, none, 0⟩ ∧
    cache_get statA (get_bounds_cached statA [] (none, none) 0 "p").store "p" = none ∧
    (get_bounds_cached statA
      (get_bounds_cached statA [] (none, none) 0 "p").store (some 1, some 2) 1 "p").toolCalled =
      true :=
  negative_cache_retries statA [] 0 1 "p" 10 20 (some 1, some 2) (by decide) (by decide)

/-- Helper: the first bound stays `none` along the fold when every
first-labelled line fails to parse. -/
theorem capinfos_fold_first (tryFloat : List Char → Option Time) (lines : List String) :
    ∀ acc : Option Time × Option Time,
      (∀ l ∈ lines, isFirstLabel l.toList = true → parse_epoch_field tryFloat l.toList = none) →
      acc.1 = none → (lines.foldl (capinfos_step tryFloat) acc).1 = none := by
  induction lines with
  | nil => intro acc _ h; simpa using h
  | cons l ls ih =>
    intro acc hall hacc
    simp only [List.foldl_cons]
    have hl := hall l (by simp)
    refine ih _ (fun x hx => hall x (by simp [hx])) ?_
    simp only [capinfos_step]
    by_cases h1 : isFirstLabel l.toList = true
    · rw [if_pos h1]
      exact hl h1
    · rw [if_neg h1]
      by_cases h2 : isLastLabel l.toList = true
      · rw [if_pos h2]
        exact hacc
      · rw [if_neg h2]
        exact hacc

/-- Helper: the last bound stays `none` along the fold when every
last-labelled line fails to parse. -/
theorem capinfos_fold_last (tryFloat : List Char → Option Time) (lines : List String) :
    ∀ acc : Option Time × Option Time,
      (∀ l ∈ lines, isLastLabel l.toList = true → parse_epoch_field tryFloat l.toList = none) →
      acc.2 = none → (lines.foldl (capinfos_step tryFloat) acc).2 = none := by
  induction lines with
  | nil => intro acc _ h; simpa using h
  | cons l ls ih =>
    intro acc hall hacc
    simp only [List.foldl_cons]
    have hl := hall l (by simp)
    refine ih _ (fun x hx => hall x (by simp [hx])) ?_
    simp only [capinfos_step]
    by_cases h1 : isFirstLabel l.toList = true
    · rw [if_pos h1]
      exact hacc
    · rw [if_neg h1]
      by_cases h2 : isLastLabel l.toList = true
      · rw [if_pos h2]
        exact hl h2
      · rw [if_neg h2]
        exact hacc

/-- C10: the bounds adapter is total over tool behaviour.  A non-zero exit
code yields `(None, None)`; with exit code 0, if no line carries a parseable
first (resp. last) packet-time — the label is absent, or `float` raises on
its value — then that bound is `None`.  (`capinfos_epoch_bounds` is a total
function by construction: no branch raises.) -/
theorem capinfos_bounds_fail_closed (rc : Int) (lines : List String)
    (tryFloat : List Char → Option Time) :
    (rc ≠ 0 → capinfos_epoch_bounds rc lines tryFloat = (none, none)) ∧
    (rc = 0 →
      ((∀ l ∈ lines, isFirstLabel l.toList = true →
          parse_epoch_field tryFloat l.toList = none) →
        (capinfos_epoch_bounds rc lines tryFloat).1 = none) ∧
      ((∀ l ∈ lines, isLastLabel l.toList = true →
          parse_epoch_field tryFloat l.toList = none) →
        (capinfos_epoch_bounds rc lines tryFloat).2 = none)) := by
  refine ⟨?_, ?_⟩
  · intro h
    simp [capinfos_epoch_bounds, h]
  · intro h
    subst h
    constructor
    · intro hall
      simp only [capinfos_epoch_bounds]
      norm_num
      exact capinfos_fold_first tryFloat lines (none, none) hall rfl
    · intro hall
      simp only [capinfos_epoch_bounds]
      norm_num
      exact capinfos_fold_last tryFloat lines (none, none) hall rfl

/-- Witness for `capinfos_bounds_fail_closed`: exit code 1 gives
`(None, None)`; exit code 0 with an unparseable first line and no last line
gives both bounds `None`. -/
theorem capinfos_bounds_fail_closed_witness :
    capinfos_epoch_bounds 1 ["First packet time: 7.5"] (fun _ => none) = (none, none) ∧
    (capinfos_epoch_bounds 0 ["First packet time: abc", "noise"] (fun _ => none)).1 = none ∧
    (capinfos_epoch_bounds 0 ["First packet time: abc", "noise"] (fun _ => none)).2 = none := by
  refine ⟨(capinfos_bounds_fail_closed 1 ["First packet time: 7.5"] (fun _ => none)).1
      (by norm_num),
    ((capinfos_bounds_fail_closed 0 ["First packet time: abc", "noise"]
        (fun _ => none)).2 rfl).1 (by decide),
    ((capinfos_bounds_fail_closed 0 ["First packet time: abc", "noise"]
        (fun _ => none)).2 rfl).2 (by decide)⟩

/-- C8 counterexample: with a raising cache, `summarize_first_last` raises
(`.error ()`) instead of completing with the aggregate — while the same file
with no cache (the bare tool result `(some 1, some 2)`) yields
`.ok (some (1, 2))`.  Cache failures are NOT degraded to a miss: the
operation aborts and does not return what it would return with no cache. -/
theorem cache_failure_counterexample :
    summarize_first_last [get_bounds_exc (.error ()) (some 1, some 2) true] = .error () ∧
    summarize_first_last [.ok (some 1, some 2)] = .ok (some (1, 2)) :=
  ⟨rfl, rfl⟩

/-- C8 amended: what a cache failure actually does.  In the precise filter
the per-file `except Exception` catches it, the run completes, and the
affected file is silently dropped (not recomputed as a miss would be); in
`summarize_first_last` the exception propagates out of `fut.result()` and the
whole operation aborts. -/
theorem cache_failure_behaviour (w : Window) (files : List FileB) (p : String)
    (tool : Option Time × Option Time) (csOk : Bool)
    (rest : List (Except Unit (Option Time × Option Time))) :
    precise_filter_parallel (⟨p, get_bounds_exc (.error ()) tool csOk⟩ :: files) w =
      precise_filter_parallel files w ∧
    summarize_first_last (get_bounds_exc (.error ()) tool csOk :: rest) = .error () :=
  ⟨rfl, rfl⟩

/-- Helper: the scanner's per-file test, as a proposition. -/
theorem is_candidate_iff (lower upper : Time) (f : FileEntry) :
    is_candidate lower upper f = true ↔
      PCAP_EXTS.contains (pyLower (pySuffix f.name.toList)) = true ∧
      ∃ mt, f.statMtime = some mt ∧ lower ≤ mt ∧ mt ≤ upper := by
  unfold is_candidate
  by_cases hext : PCAP_EXTS.contains (pyLower (pySuffix f.name.toList)) = true
  · rw [if_pos hext]
    cases hst : f.statMtime with
    | none => simp [hext]
    | some mt =>
      simp only [hext, true_and, Bool.and_eq_true, decide_eq_true_eq]
      constructor
      · rintro ⟨h1, h2⟩
        exact ⟨mt, rfl, h1, h2⟩
      · rintro ⟨mt', hmt', h1, h2⟩
        cases Option.some.inj hmt'
        exact ⟨h1, h2⟩
  · rw [if_neg hext]
    constructor
    · intro hfalse
      simp at hfalse
    · rintro ⟨hc, _⟩
      exact absurd hc hext

/-- Helper: the scanner raises exactly when some root is not a directory. -/
theorem scan_files_error_iff (lower upper : Time) (roots : List Root) :
    scan_files lower upper roots = .error () ↔ ∃ r ∈ roots, r.isDir = false := by
  induction roots with
  | nil => simp [scan_files]
  | cons r rs ih =>
    by_cases hd : r.isDir = true
    · rw [scan_files, if_pos hd]
      cases hrec : scan_files lower upper rs with
      | error e =>
        cases e
        simp only [List.mem_cons]
        constructor
        · intro _
          obtain ⟨r', hr', hfalse⟩ := ih.mp hrec
          exact ⟨r', Or.inr hr', hfalse⟩
        · intro _
          trivial
      | ok fs =>
        simp only [List.mem_cons, reduceCtorEq, false_iff]
        rintro ⟨r', hr', hfalse⟩
        rcases hr' with rfl | hr'
        · rw [hd] at hfalse
          cases hfalse
        · exact absurd (ih.mpr ⟨r', hr', hfalse⟩) (by rw [hrec]; simp)
    · rw [scan_files, if_neg hd]
      simp only [List.mem_cons, true_iff]
      exact ⟨r, Or.inl rfl, by simpa using hd⟩

/-- Helper: membership in a successful scan result. -/
theorem scan_files_ok_mem (lower upper : Time) (roots : List Root) :
    ∀ files, scan_files lower upper roots = .ok files →
      ∀ f, f ∈ files ↔
        ∃ r ∈ roots, f ∈ r.tree.walkFiles ∧ is_candidate lower upper f = true := by
  induction roots with
  | nil =>
    intro files h f
    rw [scan_files] at h
    cases h
    simp
  | cons r rs ih =>
    intro files h f
    by_cases hd : r.isDir = true
    · rw [scan_files, if_pos hd] at h
      cases hrec : scan_files lower upper rs with
      | error e => rw [hrec] at h; cases h
      | ok fs =>
        rw [hrec] at h
        cases h
        simp only [List.mem_append, List.mem_filter, ih fs hrec f, List.mem_cons]
        constructor
        · rintro (⟨hw, hc⟩ | ⟨r', hr', hw, hc⟩)
          · exact ⟨r, Or.inl rfl, hw, hc⟩
          · exact ⟨r', Or.inr hr', hw, hc⟩
        · rintro ⟨r', hr' | hr', hw, hc⟩
          · subst hr'
            exact Or.inl ⟨hw, hc⟩
          · exact Or.inr ⟨r', hr', hw, hc⟩
    · rw [scan_files, if_neg hd] at h
      cases h

/-- C6: scanner contract.  `candidate_files` raises iff some root is not a
directory; on success a file is in the result iff it lies under one of the
roots, its suffix lower-cases into the fixed accepted extension set, its
`stat` succeeded, and its mtime is within the inclusive widened window
`[start - slop, end + slop]` (slop in minutes, timestamps in seconds).  In
particular a per-file `stat` failure only excludes that file. -/
theorem candidate_files_spec (roots : List Root) (w : Window) (slop : Int) :
    (candidate_files roots w slop = .error () ↔ ∃ r ∈ roots, r.isDir = false) ∧
    (∀ files, candidate_files roots w slop = .ok files →
      ∀ f, f ∈ files ↔
        (∃ r ∈ roots, f ∈ r.tree.walkFiles) ∧
        PCAP_EXTS.contains (pyLower (pySuffix f.name.toList)) = true ∧
        ∃ mt, f.statMtime = some mt ∧
          w.start - slop * 60 ≤ mt ∧ mt ≤ w.stop + slop * 60) := by
  constructor
  · exact scan_files_error_iff _ _ roots
  · intro files h f
    rw [scan_files_ok_mem _ _ roots files h f]
    constructor
    · rintro ⟨r, hr, hw, hc⟩
      obtain ⟨hext, hmt⟩ := (is_candidate_iff _ _ f).mp hc
      exact ⟨⟨r, hr, hw⟩, hext, hmt⟩
    · rintro ⟨⟨r, hr, hw⟩, hext, hmt⟩
      exact ⟨r, hr, hw, (is_candidate_iff _ _ f).mpr ⟨hext, hmt⟩⟩

/-- Witness for `candidate_files_spec`: on the fixture tree the scan keeps
exactly the in-window `.pcap` file, excluding the bad extension, the
stat-failing file and the out-of-window file, and the characterization holds
for the kept file. -/
theorem candidate_files_spec_witness :
    candidate_files [rootW] wW 1 = .ok [fGood] ∧
    (fGood ∈ [fGood] ↔
      (∃ r ∈ [rootW], fGood ∈ r.tree.walkFiles) ∧
      PCAP_EXTS.contains (pyLower (pySuffix fGood.name.toList)) = true ∧
      ∃ mt, fGood.statMtime = some mt ∧
        wW.start - 1 * 60 ≤ mt ∧ mt ≤ wW.stop + 1 * 60) ∧
    (candidate_files [rootW, rootBad] wW 1 = .error () ↔
      ∃ r ∈ [rootW, rootBad], r.isDir = false) :=
  ⟨rfl, (candidate_files_spec [rootW] wW 1).2 [fGood] rfl fGood,
    (candidate_files_spec [rootW, rootBad] wW 1).1⟩

/-- Helper: unfolding of `batch_slices` for a positive batch size. -/
theorem batch_slices_cons {α : Type} (bs : Nat) (hb : 1 ≤ bs) (x : α) (xs : List α) :
    batch_slices bs (x :: xs) = (x :: xs).take bs :: batch_slices bs ((x :: xs).drop bs) := by
  obtain ⟨k, rfl⟩ : ∃ k, bs = k + 1 := ⟨bs - 1, by omega⟩
  simp [batch_slices]

/-- Helper: the slicing yields no batch only for no candidates. -/
theorem batch_slices_eq_nil_iff {α : Type} (bs : Nat) (l : List α) :
    batch_slices bs l = [] ↔ l = [] := by
  cases l with
  | nil => simp [batch_slices]
  | cons x xs => simp [batch_slices]

/-- Helper: the number of batches is `⌈n / bs⌉` (length-bounded recursion). -/
theorem batch_slices_length_aux {α : Type} (bs : Nat) (hb : 1 ≤ bs) :
    ∀ (n : Nat) (l : List α), l.length ≤ n →
      (batch_slices bs l).length = (l.length + bs - 1) / bs := by
  intro n
  induction n with
  | zero =>
    intro l hl
    have h0 : l = [] := List.length_eq_zero.mp (by omega)
    subst h0
    simp only [batch_slices, List.length_nil, Nat.zero_add]
    exact (Nat.div_eq_of_lt (by omega)).symm
  | succ n ih =>
    intro l hl
    cases l with
    | nil =>
      simp only [batch_slices, List.length_nil, Nat.zero_add]
      exact (Nat.div_eq_of_lt (by omega)).symm
    | cons x xs =>
      rw [batch_slices_cons bs hb]
      simp only [List.length_cons]
      rw [ih ((x :: xs).drop bs) (by simp only [List.length_drop, List.length_cons] at hl ⊢; omega)]
      simp only [List.length_drop, List.length_cons]
      by_cases hle : xs.length + 1 ≤ bs
      · rw [show xs.length + 1 - bs = 0 from by omega]
        rw [Nat.div_eq_of_lt (by omega),
          show xs.length + 1 + bs - 1 = xs.length + bs from by omega,
          Nat.add_div_right _ (by omega), Nat.div_eq_of_lt (by omega)]
      · rw [show xs.length + 1 - bs + bs - 1 = xs.length from by omega,
          show xs.length + 1 + bs - 1 = xs.length + bs from by omega,
          Nat.add_div_right _ (by omega)]

/-- Helper: every batch has at most `bs` elements. -/
theorem batch_slices_size_le_aux {α : Type} (bs : Nat) (hb : 1 ≤ bs) :
    ∀ (n : Nat) (l : List α), l.length ≤ n →
      ∀ c ∈ batch_slices bs l, c.length ≤ bs := by
  intro n
  induction n with
  | zero =>
    intro l hl c hc
    have h0 : l = [] := List.length_eq_zero.mp (by omega)
    subst h0
    simp [batch_slices] at hc
  | succ n ih =>
    intro l hl c hc
    cases l with
    | nil => simp [batch_slices] at hc
    | cons x xs =>
      rw [batch_slices_cons bs hb] at hc
      rcases List.mem_cons.mp hc with rfl | hc
      · simp [List.length_take]
      · exact ih ((x :: xs).drop bs) (by simp only [List.length_drop, List.length_cons] at hl ⊢; omega) c hc

/-- Helper: every batch but the last has exactly `bs` elements. -/
theorem batch_slices_dropLast_aux {α : Type} (bs : Nat) (hb : 1 ≤ bs) :
    ∀ (n : Nat) (l : List α), l.length ≤ n →
      ∀ c ∈ (batch_slices bs l).dropLast, c.length = bs := by
  intro n
  induction n with
  | zero =>
    intro l hl c hc
    have h0 : l = [] := List.length_eq_zero.mp (by omega)
    subst h0
    simp [batch_slices] at hc
  | succ n ih =>
    intro l hl c hc
    cases l with
    | nil => simp [batch_slices] at hc
    | cons x xs =>
      rw [batch_slices_cons bs hb] at hc
      cases hrest : batch_slices bs ((x :: xs).drop bs) with
      | nil => rw [hrest] at hc; simp at hc
      | cons c0 cs =>
        rw [hrest] at hc
        rw [List.dropLast_cons_of_ne_nil (by simp)] at hc
        rcases List.mem_cons.mp hc with rfl | hc
        · have hne : (x :: xs).drop bs ≠ [] := by
            intro hnil
            rw [hnil] at hrest
            simp [batch_slices] at hrest
          have hlen : bs < xs.length + 1 := by
            by_contra hcon
            exact hne (List.drop_eq_nil_of_le (by simpa using not_lt.mp hcon))
          simp [List.length_take]
          omega
        · rw [← hrest] at hc
          exact ih ((x :: xs).drop bs) (by simp only [List.length_drop, List.length_cons] at hl ⊢; omega) c hc

/-- Helper: the batches concatenate back to the candidate list. -/
theorem batch_slices_join_aux {α : Type} (bs : Nat) (hb : 1 ≤ bs) :
    ∀ (n : Nat) (l : List α), l.length ≤ n → (batch_slices bs l).flatten = l := by
  intro n
  induction n with
  | zero =>
    intro l hl
    have h0 : l = [] := List.length_eq_zero.mp (by omega)
    subst h0
    simp [batch_slices]
  | succ n ih =>
    intro l hl
    cases l with
    | nil => simp [batch_slices]
    | cons x xs =>
      rw [batch_slices_cons bs hb]
      rw [List.flatten_cons, ih ((x :: xs).drop bs) (by simp only [List.length_drop, List.length_cons] at hl ⊢; omega)]
      exact List.take_append_drop bs (x :: xs)

/-- C7: batch determinism and shape.  The pipeline's batching of the sorted
candidates is identical for any two permutations of the same candidate set,
and for batch size `b ≥ 1` it produces exactly `⌈n / b⌉` batches, each of at
most `b` paths, all but the last of exactly `b`, concatenating back to the
sorted list (contiguity). -/
theorem batch_partition (l1 l2 : List String) (b : Int)
    (hperm : l1.Perm l2) (hb : 1 ≤ b) :
    build_batches b (sort_candidates l1) = build_batches b (sort_candidates l2) ∧
    (build_batches b (sort_candidates l1)).length = (l1.length + b.toNat - 1) / b.toNat ∧
    (∀ c ∈ build_batches b (sort_candidates l1), c.length ≤ b.toNat) ∧
    (∀ c ∈ (build_batches b (sort_candidates l1)).dropLast, c.length = b.toNat) ∧
    (build_batches b (sort_candidates l1)).flatten = sort_candidates l1 := by
  have hbn : 1 ≤ b.toNat := by omega
  have hmax : (max 1 b).toNat = b.toNat := by
    rw [max_eq_right hb]
  have hsorteq : sort_candidates l1 = sort_candidates l2 :=
    List.eq_of_perm_of_sorted
      ((List.perm_insertionSort pathLe l1).trans
        (hperm.trans (List.perm_insertionSort pathLe l2).symm))
      (List.sorted_insertionSort pathLe l1) (List.sorted_insertionSort pathLe l2)
  have hlen : (sort_candidates l1).length = l1.length :=
    (List.perm_insertionSort pathLe l1).length_eq
  refine ⟨by rw [hsorteq], ?_, ?_, ?_, ?_⟩
  · rw [build_batches, hmax,
      batch_slices_length_aux b.toNat hbn (sort_candidates l1).length _ le_rfl, hlen]
  · rw [build_batches, hmax]
    exact batch_slices_size_le_aux b.toNat hbn (sort_candidates l1).length _ le_rfl
  · rw [build_batches, hmax]
    exact batch_slices_dropLast_aux b.toNat hbn (sort_candidates l1).length _ le_rfl
  · rw [build_batches, hmax]
    exact batch_slices_join_aux b.toNat hbn (sort_candidates l1).length _ le_rfl

/-- Witness for `batch_partition` on the two-element permutations
`["b", "a"]` and `["a", "b"]` with batch size 2. -/
theorem batch_partition_witness :
    (["b", "a"] : List String).Perm ["a", "b"] ∧ (1 : Int) ≤ 2 ∧
    (build_batches 2 (sort_candidates ["b", "a"]) = build_batches 2 (sort_candidates ["a", "b"]) ∧
      (build_batches 2 (sort_candidates ["b", "a"])).length =
        ((["b", "a"] : List String).length + (2 : Int).toNat - 1) / (2 : Int).toNat ∧
      (∀ c ∈ build_batches 2 (sort_candidates ["b", "a"]), c.length ≤ (2 : Int).toNat) ∧
      (∀ c ∈ (build_batches 2 (sort_candidates ["b", "a"])).dropLast,
        c.length = (2 : Int).toNat) ∧
      (build_batches 2 (sort_candidates ["b", "a"])).flatten = sort_candidates ["b", "a"]) :=
  ⟨by decide, by norm_num, batch_partition ["b", "a"] ["a", "b"] 2 (by decide) (by norm_num)⟩

/-- Helper: batch size 1 yields singleton batches. -/
theorem batch_slices_one {α : Type} : ∀ l : List α, batch_slices 1 l = l.map (fun x => [x])
  | [] => by simp [batch_slices]
  | x :: xs => by
    rw [batch_slices_cons 1 le_rfl]
    simp [batch_slices_one xs]

/-- C9 counterexample: a zero batch size does NOT raise an argument error —
the pipeline runs to completion (destination written) and batches are built
with size `max(1, 0) = 1`.  No error is surfaced, before side effects or at
all. -/
theorem batch_size_zero_counterexample :
    build_output ["a"] 0 false allOk = (.ok (), .complete) ∧
    build_batches 0 ["a", "b"] = [["a"], ["b"]] := by
  constructor
  · have hbat : build_batches 0 (sort_candidates ["a"]) = [["a"]] := by
      simp [build_batches, sort_candidates, List.insertionSort, List.orderedInsert,
        batch_slices_one]
    simp [build_output, hbat, stage_outcomes_ok, allOk]
  · have : ((max 1 (0 : Int)).toNat) = 1 := by norm_num
    simp [build_batches, this, batch_slices_one]

/-- C9 amended: `build_output` computes `bs = max(1, batch_size)`, so a zero
or negative `batchSize` is silently clamped to 1 — every batch is a
singleton and the whole invocation behaves exactly as `batchSize = 1`; no
`PCAPPullerError` is raised for it. -/
theorem batch_size_clamped (bs : Int) (hbs : bs ≤ 0) :
    (∀ l : List String, build_batches bs l = l.map (fun x => [x])) ∧
    (∀ (cands : List String) (df : Bool) (o : Outcomes),
      build_output cands bs df o = build_output cands 1 df o) := by
  have hmax : (max 1 bs).toNat = 1 := by
    rw [max_eq_left (by omega)]
    rfl
  constructor
  · intro l
    rw [build_batches, hmax, batch_slices_one]
  · intro cands df o
    simp only [build_output, build_batches, hmax]
    norm_num

/-- Witness for `batch_size_clamped` at `batchSize = 0`. -/
theorem batch_size_clamped_witness :
    ((0 : Int) ≤ 0) ∧
    build_batches 0 ["x"] = (["x"] : List String).map (fun x => [x]) ∧
    build_output ["x"] 0 true allOk = build_output ["x"] 1 true allOk :=
  ⟨le_refl 0, (batch_size_clamped 0 (le_refl 0)).1 ["x"],
    (batch_size_clamped 0 (le_refl 0)).2 ["x"] true allOk⟩

/-- C4 counterexample: with every stage up to and including the content
filter succeeding but the final compress/copy failing, the run errors AND a
truncated file is visible at the destination — `gzip_file` / `shutil.copy2`
open the destination path directly, so the failing final stage leaves
partial output there, contradicting "no file, complete or partial, is ever
visible at the destination if any stage fails". -/
theorem destination_counterexample :
    build_output ["a"] 100 false failFinal = (.error (), .truncated) ∧
    Dest.truncated ≠ Dest.absent := by
  constructor
  · have hbat : build_batches 100 (sort_candidates ["a"]) = [["a"]] := by
      simp [build_batches, sort_candidates, List.insertionSort, List.orderedInsert,
        batch_slices]
    simp [build_output, hbat, stage_outcomes_ok, failFinal]
  · decide

/-- C4 amended: the destination is written at most once and only after all
prior stages (batch merges, combine, trim, optional content filter) have
succeeded; a failure in any prior stage leaves the destination absent; but a
failure of the final compress/copy itself leaves a truncated file at the
destination, because that step writes to the destination path directly. -/
theorem destination_write_staging (cands : List String) (bs : Int) (df : Bool)
    (o : Outcomes) (hne : cands ≠ []) :
    ((build_output cands bs df o).2 ≠ Dest.absent →
      stage_outcomes_ok o (build_batches bs (sort_candidates cands)).length df = true) ∧
    (stage_outcomes_ok o (build_batches bs (sort_candidates cands)).length df = true →
      o.finalWriteOk = true → build_output cands bs df o = (.ok (), .complete)) ∧
    (stage_outcomes_ok o (build_batches bs (sort_candidates cands)).length df = true →
      o.finalWriteOk = false → build_output cands bs df o = (.error (), .truncated)) ∧
    (stage_outcomes_ok o (build_batches bs (sort_candidates cands)).length df = false →
      build_output cands bs df o = (.error (), .absent)) := by
  have hemp : cands.isEmpty = false := by
    cases cands with
    | nil => exact absurd rfl hne
    | cons c cs => rfl
  refine ⟨?_, ?_, ?_, ?_⟩
  · intro hdest
    by_contra hs
    have hs' : stage_outcomes_ok o (build_batches bs (sort_candidates cands)).length df =
        false := by
      simpa using hs
    exact hdest (by simp [build_output, hemp, hs'])
  · intro hs hf
    simp [build_output, hemp, hs, hf]
  · intro hs hf
    simp [build_output, hemp, hs, hf]
  · intro hs
    simp [build_output, hemp, hs]

/-- Witness for `destination_write_staging`: a successful run completes the
destination; a run failing only in the final write leaves it truncated. -/
theorem destination_write_staging_witness :
    (["a"] : List String) ≠ [] ∧
    build_output ["a"] 1 false allOk = (.ok (), .complete) ∧
    build_output ["a"] 1 false failFinal = (.error (), .truncated) := by
  have hlen : (build_batches 1 (sort_candidates ["a"])).length = 1 := by
    simp [build_batches, sort_candidates, List.insertionSort, List.orderedInsert,
      batch_slices_one]
  have h1 : stage_outcomes_ok allOk (build_batches 1 (sort_candidates ["a"])).length false =
      true := by
    rw [hlen]; decide
  have h2 : stage_outcomes_ok failFinal
      (build_batches 1 (sort_candidates ["a"])).length false = true := by
    rw [hlen]; decide
  exact ⟨by decide,
    (destination_write_staging ["a"] 1 false allOk (by decide)).2.1 h1 rfl,
    (destination_write_staging ["a"] 1 false failFinal (by decide)).2.2.1 h2 rfl⟩

end PCAPPuller
